import Mathlib

/-! Row layout and update dispatch of `go-google-sheets` (`src/main.go`).

A shallow embedding of the pure parts of `main` and `readData`:

* `readData`   : the assembly step of `readData` (lines 210-224), run on the decoded YAML document;
* `layoutLoop` : the nested layout loop of `main` (lines 130-150);
* `mainValues` : the row list `values` of `main` after the layout loop (lines 119-150);
* `dispatchLoop` : the update loop of `main` (lines 152-164), as a trace of observable events.

Go's `int` is modelled by `Nat`: the index `start+i+j+modelLength+2` is the sum of a Make index,
a Model index, the number of rows already appended to `values` and 3, all bounded by lengths of
slices held in memory, so no 64-bit wrap-around is reachable.
-/

namespace GoGoogleSheets

/-! ## Data model (`src/main.go`, lines 168-189) -/

/-- Go struct `Model`. -/
structure Model where
  ID : String
  Name : String
deriving DecidableEq

/-- Go struct `CarMake`. -/
structure CarMake where
  ID : String
  Name : String
  Models : List Model
deriving DecidableEq

/-- Go struct `CarModel`: one model group of the YAML document. -/
structure CarModel where
  Values : List Model
  MakeID : String
deriving DecidableEq

/-- Go struct `CarData`. -/
structure CarData where
  CarMake : List CarMake
deriving DecidableEq

/-- Go struct `YAMLData`: the decoded configuration. -/
structure YAMLData where
  Make : List CarMake
  Model : List CarModel
deriving DecidableEq

/-- The fields of `sheets.ValueRange` that the program sets. Every cell the program writes is a
string, so `[][]interface{}` is a list of lists of strings. -/
structure ValueRange where
  MajorDimension : String := ""
  Range : String
  Values : List (List String)
deriving DecidableEq

/-! ## Go control flow and built-ins -/

/-- Go's `for i, x := range xs { s = body(s, i, x) }` over a slice, threading the loop state `s`;
the first argument is the index of the head of the remaining slice. -/
def forRange {α σ : Type} (body : σ → Nat → α → σ) : Nat → List α → σ → σ
  | _, [], s => s
  | i, x :: xs, s => forRange body (i + 1) xs (body s i x)

/-- Go's `for k := 0; k < n; k++ { s = body(s, k) }`. -/
def forUpTo {σ : Type} (n : Nat) (body : σ → Nat → σ) (s : σ) : σ :=
  (List.range n).foldl body s

/-- The call `fmt.Sprintf(sheetRange, a, b)` with `sheetRange := "Sheet2!A%d:E%d"` (line 117). -/
def Sprintf_sheetRange (a b : Nat) : String :=
  "Sheet2!A" ++ toString a ++ ":E" ++ toString b

/-- A Go `map[string][]Model`, seen through its two operations used by `readData`: reading a key
(an absent key reads as the nil slice) and assigning a key. -/
abbrev ModelMap := String → List Model

/-- The map `make(map[string][]Model)`. -/
def ModelMap.empty : ModelMap := fun _ => []

/-- The assignment `m[key] = v`. -/
def ModelMap.set (m : ModelMap) (key : String) (v : List Model) : ModelMap :=
  fun k => if k = key then v else m k

/-! ## `readData`: the assembly step (lines 210-224) -/

/-- The loop of lines 211-213 that fills `carModelData`. -/
def carModelData (config : YAMLData) : ModelMap :=
  forRange (fun (m : ModelMap) _ (carModel : CarModel) => m.set carModel.MakeID carModel.Values)
    0 config.Model ModelMap.empty

/-- The assembly step of `readData` (lines 210-224), applied to the decoded document `config`. -/
def readData (config : YAMLData) : CarData :=
  let carModelData := carModelData config
  forRange (fun (carData : CarData) _ (data : CarMake) =>
      let data := { data with Models := carModelData data.ID }
      { carData with CarMake := carData.CarMake ++ [data] })
    0 config.Make { CarMake := [] }

/-! ## The layout loop of `main` (lines 114-150) -/

/-- The header row, the only element of `values` before the layout loop (lines 115-128). -/
def headerRow : ValueRange :=
  { Range := "Sheet2!A1:E1", Values := [["make name", "id", "", "model name", "id"]] }

/-- The inner loop of lines 131-136: `modelLength` for the Make of index `i`. The loop reads
`carData.CarMake[k]` only for `k < i`, and `i` is an index of the slice, so the read is always
in range; the embedding reads 0 outside the slice. -/
def modelLength (carData : CarData) (i : Nat) : Nat :=
  let modelLength := 0
  if i > 0 then
    forUpTo i (fun modelLength k =>
      modelLength + ((carData.CarMake[k]?).map (fun m => m.Models.length)).getD 0) modelLength
  else modelLength

/-- The row index `start+i+j+modelLength+2` of line 146, with `start := 1` (line 144). -/
def rowNumber (i j modelLength : Nat) : Nat :=
  let start := 1
  start + i + j + modelLength + 2

/-- The `sheets.ValueRange` appended at lines 138-148 for the Make of index `i` and its Model of
index `j`. -/
def dataRow (i : Nat) (carMake : CarMake) (modelLength j : Nat) (carModel : Model) : ValueRange :=
  let carMakeName := if j = 0 then carMake.Name else ""
  let carMakeID := if j = 0 then carMake.ID else ""
  { Range := Sprintf_sheetRange (rowNumber i j modelLength) (rowNumber i j modelLength),
    Values := [[carMakeName, carMakeID, "", carModel.Name, carModel.ID]] }

/-- The nested loop of lines 130-150, appending `emit i carMake modelLength j carModel` to the
accumulator once per iteration of the inner loop. -/
def layoutLoop {β : Type} (emit : Nat → CarMake → Nat → Nat → Model → β)
    (carData : CarData) (values : List β) : List β :=
  forRange (fun values i (carMake : CarMake) =>
      let modelLength := modelLength carData i
      forRange (fun values j (carModel : Model) =>
          values ++ [emit i carMake modelLength j carModel])
        0 carMake.Models values)
    0 carData.CarMake values

/-- The slice `values` of `main` when the layout loop has finished (lines 119-150). -/
def mainValues (carData : CarData) : List ValueRange :=
  layoutLoop dataRow carData [headerRow]

/-- The data rows: what the layout loop appends, without the initial header. -/
def dataRows (carData : CarData) : List ValueRange :=
  layoutLoop dataRow carData []

/-- The row indices computed at line 146, in the order in which the layout loop emits the rows. -/
def emittedRowIndices (carData : CarData) : List Nat :=
  layoutLoop (fun i _ modelLength j _ => rowNumber i j modelLength) carData []

/-! ## The dispatch loop of `main` (lines 152-164) -/

/-- Constant `spreadsheetId` of line 94. -/
def spreadsheetId : String := "1OxUGr5qJ835LgPa45J93Iu1adKGNVdPTWgT7QMnKdww"

/-- The observable actions of the dispatch loop. -/
inductive Event where
  /-- The call `srv.Spreadsheets.Values.Update(id, range, body).ValueInputOption(opt).Do()`. -/
  | update (id range : String) (body : ValueRange) (opt : String)
  /-- The call `time.Sleep(seconds * time.Second)`. -/
  | sleep (seconds : Nat)
  /-- The call `log.Fatalf`, which terminates the process. -/
  | fatal
deriving DecidableEq

/-- The update call issued for one element of `values` (lines 153-156). -/
def updateCall (valueRange : ValueRange) : Event :=
  Event.update spreadsheetId valueRange.Range
    { MajorDimension := "ROWS", Range := "", Values := valueRange.Values } "RAW"

/-- The loop of lines 152-164. `fails i` tells whether the update call of the iteration of index
`i` returns a non-nil error; the result is the trace of actions performed. -/
def dispatchLoop (fails : Nat → Bool) : Nat → List ValueRange → List Event
  | _, [] => []
  | i, valueRange :: rest =>
    let call := [updateCall valueRange]
    let pause := if i % 10 = 0 then [Event.sleep 2] else []
    if fails i then call ++ pause ++ [Event.fatal]
    else call ++ pause ++ dispatchLoop fails (i + 1) rest

/-- The update calls of a trace, in order. -/
def updatesIssued (trace : List Event) : List Event :=
  trace.filter (fun e => match e with
    | Event.update _ _ _ _ => true
    | _ => false)

/-- The number of pauses in a trace. -/
def pauseCount (trace : List Event) : Nat :=
  trace.countP (fun e => match e with
    | Event.sleep _ => true
    | _ => false)

/-! ## Specification-side definitions -/

/-- The sum of `len(Models)` over all Makes with index `< i`. -/
def modelCountBefore (carData : CarData) (i : Nat) : Nat :=
  ((carData.CarMake.take i).map (fun m => m.Models.length)).sum

/-- The example input of the specification, already assembled: one Make `(m1, Toyota)` owning
the Models `(c1, Corolla)` and `(c2, Camry)`. -/
def toyota : CarData :=
  { CarMake := [{ ID := "m1", Name := "Toyota",
                  Models := [{ ID := "c1", Name := "Corolla" }, { ID := "c2", Name := "Camry" }] }] }

/-- The rows emitted for the Make `p.2` of index `p.1`, with `modelCountBefore` for
`modelLength`. -/
def segment {β : Type} (emit : Nat → CarMake → Nat → Nat → Model → β) (carData : CarData)
    (p : Nat × CarMake) : List β :=
  (p.2.Models.enumFrom 0).map (fun q => emit p.1 p.2 (modelCountBefore carData p.1) q.1 q.2)

/-- A running row counter, as a loop: the counter starts at `start`, every (Make, Model) pair is
given the current value of the counter, which is then incremented, and the counter is advanced by
`perMake` more when the Models of a Make are exhausted. -/
def runningCounter (start perMake : Nat) (carData : CarData) : List Nat :=
  (forRange (fun (s : Nat × List Nat) _ (carMake : CarMake) =>
      let s := forRange (fun (s : Nat × List Nat) _ (_ : Model) => (s.1 + 1, s.2 ++ [s.1]))
        0 carMake.Models s
      (s.1 + perMake, s.2))
    0 carData.CarMake (start, [])).2

/-- The values handed out by the running counter, by recursion over the Makes. -/
def counterRows (perMake : Nat) : Nat → List CarMake → List Nat
  | _, [] => []
  | c, m :: rest =>
    List.range' c m.Models.length ++ counterRows perMake (c + m.Models.length + perMake) rest

/-- The decimal digits of `n`, most significant first. -/
def decimalDigits (n : Nat) : List Char :=
  if n < 10 then [Nat.digitChar n] else decimalDigits (n / 10) ++ [Nat.digitChar (n % 10)]
decreasing_by omega


/-- The Values of the last ModelGroup of `groups` whose MakeID is `id`; empty when no ModelGroup
has that MakeID. -/
def lastGroupValues (groups : List CarModel) (id : String) : List Model :=
  match groups.reverse.find? (fun g => decide (g.MakeID = id)) with
  | some g => g.Values
  | none => []

/-- The total number of Model entries across all ModelGroups whose parent id equals the id of
some Make of the document. -/
def matchedModelCount (config : YAMLData) : Nat :=
  ((config.Model.filter
      (fun g => decide (g.MakeID ∈ config.Make.map (fun m => m.ID)))).map
    (fun g => g.Values.length)).sum

/-- Two Makes with one Model each. -/
def twoMakes : CarData :=
  { CarMake := [{ ID := "m1", Name := "Toyota", Models := [{ ID := "c1", Name := "Corolla" }] },
                { ID := "m2", Name := "Honda", Models := [{ ID := "c2", Name := "Civic" }] }] }

/-- A document in which two ModelGroups name the same Make. -/
def dupGroups : YAMLData :=
  { Make := [{ ID := "m1", Name := "Toyota", Models := [] }],
    Model := [{ Values := [{ ID := "c1", Name := "Corolla" }], MakeID := "m1" },
              { Values := [{ ID := "c2", Name := "Camry" }], MakeID := "m1" }] }

/-- A document in which two Makes carry the same id. -/
def dupMakes : YAMLData :=
  { Make := [{ ID := "m1", Name := "Toyota", Models := [] },
             { ID := "m1", Name := "Toyota Motor", Models := [] }],
    Model := [{ Values := [{ ID := "c1", Name := "Corolla" }], MakeID := "m1" }] }

/-- The specification's example document before assembly. -/
def toyotaConfig : YAMLData :=
  { Make := [{ ID := "m1", Name := "Toyota", Models := [] }],
    Model := [{ Values := [{ ID := "c1", Name := "Corolla" }, { ID := "c2", Name := "Camry" }],
                MakeID := "m1" }] }

/-! ## Loop lemmas -/

theorem forRange_append_emit {α β : Type} (f : Nat → α → β) (xs : List α) (j0 : Nat)
    (values : List β) :
    forRange (fun values j x => values ++ [f j x]) j0 xs values
      = values ++ (xs.enumFrom j0).map (fun p => f p.1 p.2) := by
  induction xs generalizing j0 values with
  | nil => simp [forRange]
  | cons x xs ih => simp [forRange, ih, List.enumFrom_cons]

theorem forRange_append_segment {α β : Type} (g : Nat → α → List β) (xs : List α) (i0 : Nat)
    (values : List β) :
    forRange (fun values i x => values ++ g i x) i0 xs values
      = values ++ ((xs.enumFrom i0).map (fun p => g p.1 p.2)).flatten := by
  induction xs generalizing i0 values with
  | nil => simp [forRange]
  | cons x xs ih => simp [forRange, ih, List.enumFrom_cons]

theorem forUpTo_add (f : Nat → Nat) (n : Nat) :
    forUpTo n (fun acc k => acc + f k) 0 = ((List.range n).map f).sum := by
  induction n with
  | zero => simp [forUpTo]
  | succ n ih =>
    simp only [forUpTo] at ih
    simp [forUpTo, List.range_succ, List.foldl_append, ih]

theorem sum_take_eq_sum_range (ls : List Nat) (n : Nat) :
    (ls.take n).sum = ((List.range n).map (fun k => (ls[k]?).getD 0)).sum := by
  induction n with
  | zero => simp
  | succ n ih =>
    rw [List.take_succ, List.sum_append, ih, List.range_succ, List.map_append, List.sum_append]
    cases h : ls[n]? <;> simp [h]

theorem modelLength_eq (carData : CarData) (i : Nat) :
    modelLength carData i = modelCountBefore carData i := by
  unfold modelLength modelCountBefore
  rw [List.map_take, sum_take_eq_sum_range]
  by_cases hi : i > 0
  · simp only [hi, if_true]
    rw [forUpTo_add]
    congr 1
    apply List.map_congr_left
    intro k _
    simp [List.getElem?_map]
  · have : i = 0 := by omega
    subst this
    simp

theorem layoutLoop_eq {β : Type} (emit : Nat → CarMake → Nat → Nat → Model → β)
    (carData : CarData) (values : List β) :
    layoutLoop emit carData values
      = values ++ ((carData.CarMake.enumFrom 0).map (segment emit carData)).flatten := by
  unfold layoutLoop
  simp only [forRange_append_emit, modelLength_eq]
  exact forRange_append_segment _ _ _ _

theorem getElem?_flatten_segment {β : Type} (L : List (List β)) (i : Nat) (seg : List β)
    (h : L[i]? = some seg) (j : Nat) (hj : j < seg.length) :
    L.flatten[((L.take i).map List.length).sum + j]? = seg[j]? := by
  induction L generalizing i with
  | nil => simp at h
  | cons l L ih =>
    cases i with
    | zero =>
      simp at h
      subst h
      simp [List.getElem?_append_left hj]
    | succ i =>
      simp at h
      simp only [List.flatten_cons, List.take_succ_cons, List.map_cons, List.sum_cons]
      rw [List.getElem?_append_right (by omega)]
      have : l.length + ((L.take i).map List.length).sum + j - l.length
          = ((L.take i).map List.length).sum + j := by omega
      rw [this]
      exact ih i h

theorem segment_length {β : Type} (emit : Nat → CarMake → Nat → Nat → Model → β)
    (carData : CarData) (p : Nat × CarMake) :
    (segment emit carData p).length = p.2.Models.length := by
  simp [segment]

theorem segments_take_length {β : Type} (emit : Nat → CarMake → Nat → Nat → Model → β)
    (carData : CarData) (makes : List CarMake) (i0 i : Nat) :
    ((((makes.enumFrom i0).map (segment emit carData)).take i).map List.length).sum
      = (((makes.take i).map (fun m => m.Models.length))).sum := by
  induction makes generalizing i0 i with
  | nil => simp
  | cons m ms ih =>
    cases i with
    | zero => simp
    | succ i =>
      simp only [List.enumFrom_cons, List.map_cons, List.take_succ_cons, List.sum_cons,
        segment_length, ih]

theorem layoutLoop_length {β : Type} (emit : Nat → CarMake → Nat → Nat → Model → β)
    (carData : CarData) (values : List β) :
    (layoutLoop emit carData values).length
      = values.length + (carData.CarMake.map (fun m => m.Models.length)).sum := by
  rw [layoutLoop_eq, List.length_append]
  congr 1
  have h := segments_take_length emit carData carData.CarMake 0 carData.CarMake.length
  rw [List.take_of_length_le (by simp), List.take_of_length_le (by simp)] at h
  rw [List.length_flatten]
  exact h

theorem layoutLoop_getElem? {β : Type} (emit : Nat → CarMake → Nat → Nat → Model → β)
    (carData : CarData) (i j : Nat) (carMake : CarMake) (carModel : Model)
    (hi : carData.CarMake[i]? = some carMake) (hj : carMake.Models[j]? = some carModel) :
    (layoutLoop emit carData [])[modelCountBefore carData i + j]?
      = some (emit i carMake (modelCountBefore carData i) j carModel) := by
  rw [layoutLoop_eq, List.nil_append]
  have hseg : ((carData.CarMake.enumFrom 0).map (segment emit carData))[i]?
      = some (segment emit carData (i, carMake)) := by
    simp [List.getElem?_map, List.getElem?_enumFrom, hi]
  have hjlt : j < carMake.Models.length := by
    by_contra hcon
    rw [List.getElem?_eq_none (by omega)] at hj
    cases hj
  have key := getElem?_flatten_segment _ i _ hseg j (by rw [segment_length]; exact hjlt)
  rw [segments_take_length] at key
  have e : ((carData.CarMake.take i).map (fun m => m.Models.length)).sum
      = modelCountBefore carData i := rfl
  rw [e] at key
  rw [key]
  simp [segment, List.getElem?_map, List.getElem?_enumFrom, hj]

theorem layoutLoop_append {β : Type} (emit : Nat → CarMake → Nat → Nat → Model → β)
    (carData : CarData) (values : List β) :
    layoutLoop emit carData values = values ++ layoutLoop emit carData [] := by
  rw [layoutLoop_eq, layoutLoop_eq, List.nil_append]

theorem layoutLoop_map {β γ : Type} (f : β → γ) (emit : Nat → CarMake → Nat → Nat → Model → β)
    (carData : CarData) :
    layoutLoop (fun i m l j x => f (emit i m l j x)) carData []
      = (layoutLoop emit carData []).map f := by
  rw [layoutLoop_eq, layoutLoop_eq]
  simp only [List.nil_append, List.map_flatten, List.map_map]
  congr 1
  apply List.map_congr_left
  intro p _
  simp [segment]

theorem counter_inner {α : Type} (xs : List α) (j0 c : Nat) (out : List Nat) :
    forRange (fun (s : Nat × List Nat) _ (_ : α) => (s.1 + 1, s.2 ++ [s.1])) j0 xs (c, out)
      = (c + xs.length, out ++ List.range' c xs.length) := by
  induction xs generalizing j0 c out with
  | nil => simp [forRange]
  | cons x xs ih =>
    simp only [forRange, ih, List.length_cons, List.range'_succ, List.append_assoc,
      List.singleton_append, Prod.mk.injEq, and_true]
    omega

theorem counter_outer (perMake : Nat) (makes : List CarMake) (i0 c : Nat) (out : List Nat) :
    (forRange (fun (s : Nat × List Nat) _ (carMake : CarMake) =>
        let s := forRange (fun (s : Nat × List Nat) _ (_ : Model) => (s.1 + 1, s.2 ++ [s.1]))
          0 carMake.Models s
        (s.1 + perMake, s.2))
      i0 makes (c, out)).2 = out ++ counterRows perMake c makes := by
  induction makes generalizing i0 c out with
  | nil => simp [forRange, counterRows]
  | cons m ms ih =>
    simp only [forRange, counter_inner, ih, counterRows, List.append_assoc]

theorem runningCounter_eq (start perMake : Nat) (carData : CarData) :
    runningCounter start perMake carData = counterRows perMake start carData.CarMake := by
  unfold runningCounter
  rw [counter_outer, List.nil_append]

theorem map_enumFrom_add {α : Type} (xs : List α) (a n : Nat) :
    (xs.enumFrom n).map (fun q => a + q.1) = List.range' (a + n) xs.length := by
  induction xs generalizing n with
  | nil => simp
  | cons x xs ih =>
    simp only [List.enumFrom_cons, List.map_cons, List.length_cons, List.range'_succ, ih]
    rfl

theorem segments_eq_counterRows (carData : CarData) (pre suf : List CarMake)
    (h : carData.CarMake = pre ++ suf) :
    ((suf.enumFrom pre.length).map
        (segment (fun i _ modelLength j _ => rowNumber i j modelLength) carData)).flatten
      = counterRows 1 (3 + pre.length + (pre.map (fun m => m.Models.length)).sum) suf := by
  induction suf generalizing pre with
  | nil => simp [counterRows]
  | cons m rest ih =>
    have hpre : modelCountBefore carData pre.length
        = (pre.map (fun m => m.Models.length)).sum := by
      simp [modelCountBefore, h]
    have hseg : segment (fun i _ modelLength j _ => rowNumber i j modelLength) carData
          (pre.length, m)
        = List.range' (3 + pre.length + (pre.map (fun m => m.Models.length)).sum)
            m.Models.length := by
      simp only [segment, hpre]
      rw [← Nat.add_zero (3 + pre.length + (pre.map (fun m => m.Models.length)).sum),
        ← map_enumFrom_add]
      apply List.map_congr_left
      intro q _
      simp only [rowNumber]
      omega
    have ih2 := ih (pre ++ [m]) (by simp [h])
    simp only [List.length_append, List.length_singleton, List.map_append, List.map_cons,
      List.map_nil, List.sum_append, List.sum_cons, List.sum_nil, Nat.add_zero] at ih2
    simp only [List.enumFrom_cons, List.map_cons, List.flatten_cons, hseg, counterRows, ih2]
    congr 2
    omega

theorem emittedRowIndices_eq_counterRows (carData : CarData) :
    emittedRowIndices carData = counterRows 1 3 carData.CarMake := by
  unfold emittedRowIndices
  rw [layoutLoop_eq, List.nil_append]
  exact segments_eq_counterRows carData [] carData.CarMake rfl

theorem counterRows_ge (perMake c : Nat) (makes : List CarMake) :
    ∀ r ∈ counterRows perMake c makes, c ≤ r := by
  induction makes generalizing c with
  | nil => simp [counterRows]
  | cons m rest ih =>
    intro r hr
    simp only [counterRows, List.mem_append, List.mem_range'_1] at hr
    rcases hr with hr | hr
    · exact hr.1
    · have := ih _ r hr
      omega

theorem counterRows_pairwise (perMake c : Nat) (makes : List CarMake) :
    List.Pairwise (fun a b => a < b) (counterRows perMake c makes) := by
  induction makes generalizing c with
  | nil => simp [counterRows]
  | cons m rest ih =>
    simp only [counterRows]
    rw [List.pairwise_append]
    refine ⟨List.pairwise_lt_range' _ _, ih _, ?_⟩
    intro a ha b hb
    rw [List.mem_range'_1] at ha
    have := counterRows_ge perMake _ rest b hb
    omega

/-! ## Decimal rendering of `%d` is injective -/

theorem toDigitsCore_eq (fuel n : Nat) (ds : List Char) (h : n < fuel) :
    Nat.toDigitsCore 10 fuel n ds = decimalDigits n ++ ds := by
  induction fuel generalizing n ds with
  | zero => omega
  | succ fuel ih =>
    unfold Nat.toDigitsCore
    rw [decimalDigits]
    by_cases h0 : n / 10 = 0
    · have hn : n < 10 := by omega
      have hm : n % 10 = n := Nat.mod_eq_of_lt hn
      simp [h0, hn, hm]
    · have hn : ¬ n < 10 := by omega
      simp only [h0, if_false, hn, if_false, not_false_eq_true]
      rw [ih (n / 10) _ (by omega)]
      simp

theorem toString_data (n : Nat) : (toString n).data = decimalDigits n := by
  show (Nat.repr n).data = _
  simp [Nat.repr, Nat.toDigits, toDigitsCore_eq n.succ n [] (Nat.lt_succ_self n), List.asString]

theorem digitChar_inj : ∀ a < 10, ∀ b < 10, Nat.digitChar a = Nat.digitChar b → a = b := by
  decide

theorem decimalDigits_ne_nil (n : Nat) : decimalDigits n ≠ [] := by
  rw [decimalDigits]
  split <;> simp

theorem decimalDigits_inj : ∀ a b : Nat, decimalDigits a = decimalDigits b → a = b := by
  intro a
  induction a using Nat.strong_induction_on with
  | _ a ih =>
    intro b h
    rw [decimalDigits, decimalDigits.eq_1 b] at h
    by_cases ha : a < 10 <;> by_cases hb : b < 10
    · simp only [ha, hb, if_true, List.cons.injEq, and_true] at h
      exact digitChar_inj a ha b hb h
    · simp only [ha, hb, if_true, if_false, not_false_eq_true] at h
      have hl := congrArg List.length h
      have hpos : 0 < (decimalDigits (b / 10)).length :=
        List.length_pos.mpr (decimalDigits_ne_nil (b / 10))
      simp only [List.length_append, List.length_singleton, List.length_cons,
        List.length_nil] at hl
      omega
    · simp only [ha, hb, if_true, if_false, not_false_eq_true] at h
      have hl := congrArg List.length h
      have hpos : 0 < (decimalDigits (a / 10)).length :=
        List.length_pos.mpr (decimalDigits_ne_nil (a / 10))
      simp only [List.length_append, List.length_singleton, List.length_cons,
        List.length_nil] at hl
      omega
    · simp only [ha, hb, if_false, not_false_eq_true] at h
      have h2 := List.append_inj' h rfl
      have e1 := ih (a / 10) (by omega) (b / 10) h2.1
      have e2 := digitChar_inj (a % 10) (Nat.mod_lt _ (by decide)) (b % 10)
        (Nat.mod_lt _ (by decide)) (by simpa using h2.2)
      omega

theorem Sprintf_sheetRange_inj (a b : Nat)
    (h : Sprintf_sheetRange a a = Sprintf_sheetRange b b) : a = b := by
  have hd := congrArg String.data h
  simp only [Sprintf_sheetRange, String.data_append, toString_data, List.append_assoc] at hd
  have hd2 := List.append_cancel_left hd
  have hlen := congrArg List.length hd2
  simp only [List.length_append] at hlen
  have h3 := List.append_inj hd2 (by omega)
  exact decimalDigits_inj a b h3.1


/-! ## Lemmas on `readData` -/

theorem set_loop_eq (groups : List CarModel) (i0 : Nat) (m : ModelMap) (id : String) :
    forRange (fun (m : ModelMap) _ (carModel : CarModel) =>
        m.set carModel.MakeID carModel.Values) i0 groups m id
      = match groups.reverse.find? (fun g => decide (g.MakeID = id)) with
        | some g => g.Values
        | none => m id := by
  induction groups generalizing i0 m with
  | nil => simp [forRange]
  | cons g gs ih =>
    simp only [forRange, ih, List.reverse_cons, List.find?_append]
    cases hfind : gs.reverse.find? (fun g => decide (g.MakeID = id)) with
    | some g2 => simp
    | none =>
      by_cases hg : g.MakeID = id
      · simp [ModelMap.set, hg]
      · have hg2 : ¬ id = g.MakeID := fun h => hg h.symm
        simp [ModelMap.set, hg, hg2]

theorem carModelData_eq (config : YAMLData) (id : String) :
    carModelData config id = lastGroupValues config.Model id := by
  unfold carModelData lastGroupValues
  rw [set_loop_eq]
  rfl

theorem append_loop_eq (f : CarMake → CarMake) (makes : List CarMake) (i0 : Nat)
    (carData : CarData) :
    forRange (fun (carData : CarData) _ (data : CarMake) =>
        { carData with CarMake := carData.CarMake ++ [f data] }) i0 makes carData
      = { CarMake := carData.CarMake ++ makes.map f } := by
  induction makes generalizing i0 carData with
  | nil => simp [forRange]
  | cons m ms ih => simp [forRange, ih]

theorem readData_eq (config : YAMLData) :
    (readData config).CarMake
      = config.Make.map (fun m =>
          { ID := m.ID, Name := m.Name, Models := lastGroupValues config.Model m.ID }) := by
  unfold readData
  simp only []
  rw [append_loop_eq (fun data => { data with Models := carModelData config data.ID })]
  simp only [List.nil_append]
  apply List.map_congr_left
  intro m _
  rw [carModelData_eq]

theorem lastGroupValues_of_not_mem (groups : List CarModel) (id : String)
    (h : id ∉ groups.map (fun g => g.MakeID)) : lastGroupValues groups id = [] := by
  unfold lastGroupValues
  have : groups.reverse.find? (fun g => decide (g.MakeID = id)) = none := by
    rw [List.find?_eq_none]
    intro g hg
    simp only [List.mem_reverse] at hg
    simp only [decide_eq_true_eq]
    intro hid
    exact h (List.mem_map.mpr ⟨g, hg, hid⟩)
  rw [this]

theorem lastGroupValues_cons (g : CarModel) (gs : List CarModel) (id : String)
    (h : g.MakeID ∉ gs.map (fun g => g.MakeID)) :
    lastGroupValues (g :: gs) id
      = if g.MakeID = id then g.Values else lastGroupValues gs id := by
  by_cases hg : g.MakeID = id
  · have hnone : gs.reverse.find? (fun g => decide (g.MakeID = id)) = none := by
      rw [List.find?_eq_none]
      intro g2 hg2
      simp only [List.mem_reverse] at hg2
      simp only [decide_eq_true_eq]
      intro hid
      exact h (List.mem_map.mpr ⟨g2, hg2, hid.trans hg.symm⟩)
    simp [lastGroupValues, List.find?_append, hnone, hg]
  · simp only [lastGroupValues, List.reverse_cons, List.find?_append, hg, if_false]
    cases hfind : gs.reverse.find? (fun g => decide (g.MakeID = id)) with
    | some g2 => simp
    | none => simp [hg]

theorem sum_lastGroupValues_cons (g : CarModel) (gs : List CarModel) (makes : List CarMake)
    (hg : g.MakeID ∉ gs.map (fun g => g.MakeID))
    (hm : (makes.map (fun m => m.ID)).Nodup) :
    (makes.map (fun m => (lastGroupValues (g :: gs) m.ID).length)).sum
      = (if g.MakeID ∈ makes.map (fun m => m.ID) then g.Values.length else 0)
        + (makes.map (fun m => (lastGroupValues gs m.ID).length)).sum := by
  induction makes with
  | nil => simp
  | cons m ms ih =>
    simp only [List.map_cons, List.nodup_cons] at hm
    have ih2 := ih hm.2
    simp only [List.map_cons, List.sum_cons, ih2, lastGroupValues_cons g gs m.ID hg,
      List.mem_cons]
    by_cases e : g.MakeID = m.ID
    · have hnot : g.MakeID ∉ ms.map (fun m => m.ID) := by rw [e]; exact hm.1
      have hz : lastGroupValues gs m.ID = [] :=
        lastGroupValues_of_not_mem gs m.ID (by rw [← e]; exact hg)
      simp [e, hz]
      intro x hx hxe
      exact absurd (List.mem_map.mpr ⟨x, hx, hxe⟩) hm.1
    · simp only [e, if_false, false_or]
      omega

theorem sum_lastGroupValues (groups : List CarModel) (makes : List CarMake)
    (hg : (groups.map (fun g => g.MakeID)).Nodup)
    (hm : (makes.map (fun m => m.ID)).Nodup) :
    (makes.map (fun m => (lastGroupValues groups m.ID).length)).sum
      = ((groups.filter (fun g => decide (g.MakeID ∈ makes.map (fun m => m.ID)))).map
          (fun g => g.Values.length)).sum := by
  induction groups with
  | nil => simp [lastGroupValues]
  | cons g gs ih =>
    simp only [List.map_cons, List.nodup_cons] at hg
    rw [sum_lastGroupValues_cons g gs makes hg.1 hm, ih hg.2, List.filter_cons]
    by_cases e : g.MakeID ∈ makes.map (fun m => m.ID)
    · simp [e]
    · simp [e]

/-! ## Lemmas on the dispatch loop -/

theorem dispatchLoop_ok (fails : Nat → Bool) (rows : List ValueRange) (i0 : Nat)
    (h : ∀ q, q < rows.length → fails (i0 + q) = false) :
    dispatchLoop fails i0 rows = dispatchLoop (fun _ => false) i0 rows := by
  induction rows generalizing i0 with
  | nil => simp [dispatchLoop]
  | cons r rs ih =>
    have h0 : fails i0 = false := by simpa using h 0 (by simp)
    have hrest : ∀ q, q < rs.length → fails (i0 + 1 + q) = false := by
      intro q hq
      have := h (q + 1) (by simp; omega)
      rwa [show i0 + (q + 1) = i0 + 1 + q by omega] at this
    simp [dispatchLoop, h0, ih (i0 + 1) hrest]

theorem dispatchLoop_fail (fails : Nat → Bool) (rows : List ValueRange) (i0 p : Nat)
    (hp : p < rows.length) (hq : ∀ q, q < p → fails (i0 + q) = false)
    (hf : fails (i0 + p) = true) :
    dispatchLoop fails i0 rows
      = dispatchLoop (fun _ => false) i0 (rows.take (p + 1)) ++ [Event.fatal] := by
  induction rows generalizing i0 p with
  | nil => simp at hp
  | cons r rs ih =>
    cases p with
    | zero =>
      have h0 : fails i0 = true := by simpa using hf
      simp [dispatchLoop, h0]
    | succ p =>
      have h0 : fails i0 = false := by simpa using hq 0 (by omega)
      have hrest : ∀ q, q < p → fails (i0 + 1 + q) = false := by
        intro q hq2
        have := hq (q + 1) (by omega)
        rwa [show i0 + (q + 1) = i0 + 1 + q by omega] at this
      have hf2 : fails (i0 + 1 + p) = true := by
        rwa [show i0 + (p + 1) = i0 + 1 + p by omega] at hf
      have hp2 : p < rs.length := by simpa using hp
      simp [dispatchLoop, h0, ih (i0 + 1) p hp2 hrest hf2]

theorem dispatchLoop_paced (rows : List ValueRange) (i0 : Nat) :
    dispatchLoop (fun _ => false) i0 rows
      = ((rows.enumFrom i0).map (fun p =>
          updateCall p.2 :: (if p.1 % 10 = 0 then [Event.sleep 2] else []))).flatten := by
  induction rows generalizing i0 with
  | nil => simp [dispatchLoop]
  | cons r rs ih => simp [dispatchLoop, ih, List.enumFrom_cons]

theorem updatesIssued_ok (rows : List ValueRange) (i0 : Nat) :
    updatesIssued (dispatchLoop (fun _ => false) i0 rows) = rows.map updateCall := by
  induction rows generalizing i0 with
  | nil => simp [dispatchLoop, updatesIssued]
  | cons r rs ih =>
    have ih2 := ih (i0 + 1)
    simp only [updatesIssued] at ih2 ⊢
    by_cases h10 : i0 % 10 = 0 <;>
      simp [dispatchLoop, h10, updateCall, List.filter_cons, ih2]

theorem pauseCount_ok (rows : List ValueRange) (i0 : Nat) :
    pauseCount (dispatchLoop (fun _ => false) i0 rows) + (i0 + 9) / 10
      = (i0 + rows.length + 9) / 10 := by
  induction rows generalizing i0 with
  | nil => simp [dispatchLoop, pauseCount]
  | cons r rs ih =>
    have ih2 := ih (i0 + 1)
    simp only [pauseCount] at ih2 ⊢
    by_cases h10 : i0 % 10 = 0
    · simp [dispatchLoop, h10, updateCall, List.countP_cons] at ih2 ⊢
      omega
    · simp [dispatchLoop, h10, updateCall, List.countP_cons] at ih2 ⊢
      omega

theorem dispatchLoop_ok_no_fatal (rows : List ValueRange) (i0 : Nat) :
    Event.fatal ∉ dispatchLoop (fun _ => false) i0 rows := by
  induction rows generalizing i0 with
  | nil => simp [dispatchLoop]
  | cons r rs ih =>
    by_cases h10 : i0 % 10 = 0 <;> simp [dispatchLoop, h10, updateCall, ih (i0 + 1)]

theorem mainValues_eq (carData : CarData) : mainValues carData = headerRow :: dataRows carData := by
  unfold mainValues dataRows
  rw [layoutLoop_append]
  rfl

theorem dataRows_getElem? (carData : CarData) (i j : Nat) (carMake : CarMake) (carModel : Model)
    (hi : carData.CarMake[i]? = some carMake) (hj : carMake.Models[j]? = some carModel) :
    (mainValues carData)[modelCountBefore carData i + j + 1]?
      = some (dataRow i carMake (modelCountBefore carData i) j carModel) := by
  rw [mainValues_eq, List.getElem?_cons_succ]
  exact layoutLoop_getElem? dataRow carData i j carMake carModel hi hj

theorem dataRows_range (carData : CarData) :
    (dataRows carData).map (fun v => v.Range)
      = (emittedRowIndices carData).map (fun r => Sprintf_sheetRange r r) := by
  unfold dataRows emittedRowIndices
  rw [← layoutLoop_map, ← layoutLoop_map]
  rfl

theorem dataRows_length (carData : CarData) :
    (dataRows carData).length = (carData.CarMake.map (fun m => m.Models.length)).sum := by
  unfold dataRows
  rw [layoutLoop_length]
  simp

/-! ## The claims -/

/-- C1 (counterexample): on the specification's example input, one Make `(m1, Toyota)` with the
Models `(c1, Corolla)` and `(c2, Camry)`, the layout loop addresses the two data rows at rows 3
and 4, with ranges `Sheet2!A3:E3` and `Sheet2!A4:E4`; the row of Make 0 and Model 0 is not at
`2 + 0 + 0 + modelCountBefore(0) = 2`. -/
theorem closed_form_offset_two_refuted :
    emittedRowIndices toyota = [3, 4]
    ∧ (mainValues toyota).map (fun v => v.Range)
        = ["Sheet2!A1:E1", "Sheet2!A3:E3", "Sheet2!A4:E4"]
    ∧ ¬ ((emittedRowIndices toyota)[modelCountBefore toyota 0 + 0]?
          = some (2 + 0 + 0 + modelCountBefore toyota 0)) := by
  decide

/-- C1 (amended): for every assembled list of Makes, every Make index `i` and every Model index
`j` within that Make, the data row built by the layout loop is addressed at row index
`3 + i + j + modelCountBefore(i)`, and its range string is `Sheet2!A<r>:E<r>` with that same `r`
as start and end row. The row is the element of index `modelCountBefore(i) + j` among the data
rows, hence of index `modelCountBefore(i) + j + 1` in the list built by `main`. -/
theorem closed_form_row_address (carData : CarData) (i j : Nat) (carMake : CarMake)
    (carModel : Model) (hi : carData.CarMake[i]? = some carMake)
    (hj : carMake.Models[j]? = some carModel) :
    (emittedRowIndices carData)[modelCountBefore carData i + j]?
        = some (3 + i + j + modelCountBefore carData i)
    ∧ ((mainValues carData)[modelCountBefore carData i + j + 1]?).map (fun v => v.Range)
        = some ("Sheet2!A" ++ toString (3 + i + j + modelCountBefore carData i)
                  ++ ":E" ++ toString (3 + i + j + modelCountBefore carData i)) := by
  have hrow : rowNumber i j (modelCountBefore carData i)
      = 3 + i + j + modelCountBefore carData i := by
    simp only [rowNumber]
    omega
  constructor
  · unfold emittedRowIndices
    rw [layoutLoop_getElem? _ carData i j carMake carModel hi hj, hrow]
  · rw [dataRows_getElem? carData i j carMake carModel hi hj]
    simp only [Option.map_some', dataRow, hrow, Sprintf_sheetRange]

/-- C1 (witness): on the specification's example input the second Model of the only Make is
addressed at row 4, range `Sheet2!A4:E4`. -/
theorem closed_form_row_address_witness :
    toyota.CarMake[0]?
        = some { ID := "m1", Name := "Toyota",
                 Models := [{ ID := "c1", Name := "Corolla" }, { ID := "c2", Name := "Camry" }] }
    ∧ ([{ ID := "c1", Name := "Corolla" }, { ID := "c2", Name := "Camry" }] : List Model)[1]?
        = some { ID := "c2", Name := "Camry" }
    ∧ (emittedRowIndices toyota)[1]? = some 4
    ∧ ((mainValues toyota)[2]?).map (fun v => v.Range) = some "Sheet2!A4:E4" :=
  ⟨by decide, by decide,
    (closed_form_row_address toyota 0 1
      { ID := "m1", Name := "Toyota",
        Models := [{ ID := "c1", Name := "Corolla" }, { ID := "c2", Name := "Camry" }] }
      { ID := "c2", Name := "Camry" } (by decide) (by decide)).1,
    (closed_form_row_address toyota 0 1
      { ID := "m1", Name := "Toyota",
        Models := [{ ID := "c1", Name := "Corolla" }, { ID := "c2", Name := "Camry" }] }
      { ID := "c2", Name := "Camry" } (by decide) (by decide)).2⟩

/-- C2 (counterexample): for two Makes with one Model each the layout loop assigns the rows 3 and
5, whereas a counter that starts at 2 and is incremented once per emitted pair gives 2 and 3; the
data row of emission index 1 is not at row `2 + 1`. -/
theorem counter_from_two_refuted :
    emittedRowIndices twoMakes = [3, 5]
    ∧ runningCounter 2 0 twoMakes = [2, 3]
    ∧ emittedRowIndices twoMakes ≠ runningCounter 2 0 twoMakes
    ∧ (emittedRowIndices twoMakes)[1]? ≠ some (2 + 1) := by
  decide

/-- C2 (amended): for every assembled list of Makes, the row index the layout loop assigns to each
(Make, Model) pair equals the value of a running counter that starts at 3, is incremented once
per emitted pair and once more after each Make (with or without Models); that is, the data row
of emission index `k`, belonging to the Make of index `i`, is addressed at row `3 + k + i`. -/
theorem counter_with_make_gap (carData : CarData) :
    emittedRowIndices carData = runningCounter 3 1 carData
    ∧ ∀ (i j : Nat) (carMake : CarMake) (carModel : Model),
        carData.CarMake[i]? = some carMake → carMake.Models[j]? = some carModel →
        (emittedRowIndices carData)[modelCountBefore carData i + j]?
          = some (3 + (modelCountBefore carData i + j) + i) := by
  constructor
  · rw [emittedRowIndices_eq_counterRows, runningCounter_eq]
  · intro i j carMake carModel hi hj
    unfold emittedRowIndices
    rw [layoutLoop_getElem? _ carData i j carMake carModel hi hj]
    simp only [rowNumber]
    congr 1
    omega

/-- C2 (witness): for two Makes with one Model each, the row of emission index 1, which belongs
to the Make of index 1, is addressed at row `3 + 1 + 1 = 5`. -/
theorem counter_with_make_gap_witness :
    twoMakes.CarMake[1]?
        = some { ID := "m2", Name := "Honda", Models := [{ ID := "c2", Name := "Civic" }] }
    ∧ ([{ ID := "c2", Name := "Civic" }] : List Model)[0]? = some { ID := "c2", Name := "Civic" }
    ∧ (emittedRowIndices twoMakes)[1]? = some 5 :=
  ⟨by decide, by decide,
    (counter_with_make_gap twoMakes).2 1 0
      { ID := "m2", Name := "Honda", Models := [{ ID := "c2", Name := "Civic" }] }
      { ID := "c2", Name := "Civic" } (by decide) (by decide)⟩

/-- C3: for every assembled list of Makes the layout loop emits exactly one data row per
(Make, Model) pair: the rows appended after the header number the sum of `len(Models)` over all
Makes, and a Make with zero Models contributes no row (inserting such a Make anywhere leaves the
number of data rows unchanged). -/
theorem one_row_per_make_model_pair (carData : CarData) :
    (mainValues carData).tail = dataRows carData
    ∧ (mainValues carData).tail.length = (carData.CarMake.map (fun m => m.Models.length)).sum
    ∧ ∀ (pre suf : List CarMake) (id name : String),
        (mainValues { CarMake := pre ++ { ID := id, Name := name, Models := [] } :: suf }).tail.length
          = (mainValues { CarMake := pre ++ suf }).tail.length := by
  refine ⟨by rw [mainValues_eq, List.tail_cons], ?_, ?_⟩
  · rw [mainValues_eq, List.tail_cons, dataRows_length]
  · intro pre suf id name
    rw [mainValues_eq, mainValues_eq, List.tail_cons, List.tail_cons, dataRows_length,
      dataRows_length]
    simp

/-- C4: for every assembled list of Makes, the data row emitted for the Make of index `i` and
its Model of index `j` carries exactly one line of 5 cell values
`[make name, make id, blank, model name, model id]`: cells 4 and 5 are the Name and ID of the
current Model, cell 3 is the empty string, and cells 1 and 2 are the Name and ID of the Make when
`j = 0` and are both the empty string when `j > 0`. -/
theorem data_row_cell_values (carData : CarData) (i j : Nat) (carMake : CarMake)
    (carModel : Model) (hi : carData.CarMake[i]? = some carMake)
    (hj : carMake.Models[j]? = some carModel) :
    ((mainValues carData)[modelCountBefore carData i + j + 1]?).map (fun v => v.Values)
      = some [[if j = 0 then carMake.Name else "", if j = 0 then carMake.ID else "", "",
               carModel.Name, carModel.ID]] := by
  rw [dataRows_getElem? carData i j carMake carModel hi hj]
  simp only [Option.map_some', dataRow]

/-- C4 (witness): on the specification's example input the rows of the two Models carry
`[Toyota, m1, "", Corolla, c1]` and `["", "", "", Camry, c2]`. -/
theorem data_row_cell_values_witness :
    toyota.CarMake[0]?
        = some { ID := "m1", Name := "Toyota",
                 Models := [{ ID := "c1", Name := "Corolla" }, { ID := "c2", Name := "Camry" }] }
    ∧ ([{ ID := "c1", Name := "Corolla" }, { ID := "c2", Name := "Camry" }] : List Model)[0]?
        = some { ID := "c1", Name := "Corolla" }
    ∧ ([{ ID := "c1", Name := "Corolla" }, { ID := "c2", Name := "Camry" }] : List Model)[1]?
        = some { ID := "c2", Name := "Camry" }
    ∧ ((mainValues toyota)[1]?).map (fun v => v.Values)
        = some [["Toyota", "m1", "", "Corolla", "c1"]]
    ∧ ((mainValues toyota)[2]?).map (fun v => v.Values)
        = some [["", "", "", "Camry", "c2"]] :=
  ⟨by decide, by decide, by decide,
    data_row_cell_values toyota 0 0
      { ID := "m1", Name := "Toyota",
        Models := [{ ID := "c1", Name := "Corolla" }, { ID := "c2", Name := "Camry" }] }
      { ID := "c1", Name := "Corolla" } (by decide) (by decide),
    data_row_cell_values toyota 0 1
      { ID := "m1", Name := "Toyota",
        Models := [{ ID := "c1", Name := "Corolla" }, { ID := "c2", Name := "Camry" }] }
      { ID := "c2", Name := "Camry" } (by decide) (by decide)⟩

/-- C5: for every assembled list of Makes, the empty list and lists without any Model included,
the first element of the row list built in `main` is the header row with range `Sheet2!A1:E1` and
the values `[make name, id, "", model name, id]`, and the data rows are exactly the elements
after it. -/
theorem header_row_first (carData : CarData) :
    (mainValues carData).head?
        = some { Range := "Sheet2!A1:E1", Values := [["make name", "id", "", "model name", "id"]] }
    ∧ mainValues carData
        = { Range := "Sheet2!A1:E1", Values := [["make name", "id", "", "model name", "id"]] }
            :: dataRows carData
    ∧ mainValues { CarMake := [] }
        = [{ Range := "Sheet2!A1:E1",
             Values := [["make name", "id", "", "model name", "id"]] }] := by
  refine ⟨?_, ?_, ?_⟩
  · rw [mainValues_eq]
    rfl
  · rw [mainValues_eq]
    rfl
  · rfl

/-- C10: for every assembled list of Makes, the row indices that the layout loop assigns to the
data rows are strictly increasing in emission order and all greater than 1; the ranges of the
dispatched list are `Sheet2!A1:E1` followed by `Sheet2!A<r>:E<r>` for these indices `r`, so no
two rows of the dispatched list (header included) are written to the same range. -/
theorem row_indices_strictly_increasing (carData : CarData) :
    List.Pairwise (fun a b => a < b) (emittedRowIndices carData)
    ∧ (∀ r ∈ emittedRowIndices carData, 1 < r)
    ∧ (mainValues carData).map (fun v => v.Range)
        = "Sheet2!A1:E1" :: (emittedRowIndices carData).map
            (fun r => "Sheet2!A" ++ toString r ++ ":E" ++ toString r)
    ∧ ((mainValues carData).map (fun v => v.Range)).Nodup := by
  have hpw : List.Pairwise (fun a b => a < b) (emittedRowIndices carData) := by
    rw [emittedRowIndices_eq_counterRows]
    exact counterRows_pairwise 1 3 _
  have hgt : ∀ r ∈ emittedRowIndices carData, 1 < r := by
    intro r hr
    rw [emittedRowIndices_eq_counterRows] at hr
    have := counterRows_ge 1 3 _ r hr
    omega
  have hmap : (mainValues carData).map (fun v => v.Range)
      = (1 :: emittedRowIndices carData).map (fun r => Sprintf_sheetRange r r) := by
    rw [mainValues_eq, List.map_cons, List.map_cons, dataRows_range]
    rfl
  refine ⟨hpw, hgt, ?_, ?_⟩
  · rw [hmap]
    rfl
  · rw [hmap]
    apply List.Nodup.map (fun a b h => Sprintf_sheetRange_inj a b h)
    rw [List.nodup_cons]
    refine ⟨fun h1 => ?_, hpw.imp (fun h => Nat.ne_of_lt h)⟩
    have := hgt 1 h1
    omega

/-- C10 (witness): for two Makes with one Model each the indices are 3 and 5, both in the list
and greater than 1, and the three ranges written are pairwise distinct. -/
theorem row_indices_strictly_increasing_witness :
    emittedRowIndices twoMakes = [3, 5]
    ∧ 5 ∈ emittedRowIndices twoMakes ∧ 1 < 5
    ∧ (mainValues twoMakes).map (fun v => v.Range)
        = ["Sheet2!A1:E1", "Sheet2!A3:E3", "Sheet2!A5:E5"]
    ∧ ((mainValues twoMakes).map (fun v => v.Range)).Nodup :=
  ⟨by decide, by decide,
    (row_indices_strictly_increasing twoMakes).2.1 5 (by decide),
    (row_indices_strictly_increasing twoMakes).2.2.1,
    (row_indices_strictly_increasing twoMakes).2.2.2⟩

/-- C6 (counterexample): the number of data rows differs from the total number of Model entries
of the ModelGroups whose parent id is the id of some Make, in both directions. With two
ModelGroups of parent id `m1` (one Model each) and one Make `m1`, 1 data row is produced while
2 Model entries match; with one such ModelGroup and two Makes of id `m1`, 2 data rows are
produced while 1 Model entry matches. -/
theorem matched_model_count_refuted :
    (dataRows (readData dupGroups)).length = 1 ∧ matchedModelCount dupGroups = 2
    ∧ (dataRows (readData dupMakes)).length = 2 ∧ matchedModelCount dupMakes = 1 := by
  decide

/-- C6 (amended): for every decoded configuration in which no two Makes have the same id and no
two ModelGroups have the same parent id, the number of data rows produced by the assembly of
`readData` followed by the layout loop of `main` equals the total number of Model entries across
all ModelGroups whose parent id equals the id of some Make; Models in ModelGroups whose parent id
matches no Make produce no row. -/
theorem matched_model_count_rows (config : YAMLData)
    (hMake : (config.Make.map (fun m => m.ID)).Nodup)
    (hGroup : (config.Model.map (fun g => g.MakeID)).Nodup) :
    (dataRows (readData config)).length = matchedModelCount config := by
  rw [dataRows_length, readData_eq, List.map_map]
  exact sum_lastGroupValues config.Model config.Make hGroup hMake

/-- C6 (witness): the specification's example document has distinct Make ids and distinct parent
ids, 2 matching Model entries and 2 data rows. -/
theorem matched_model_count_rows_witness :
    (toyotaConfig.Make.map (fun m => m.ID)).Nodup
    ∧ (toyotaConfig.Model.map (fun g => g.MakeID)).Nodup
    ∧ matchedModelCount toyotaConfig = 2
    ∧ (dataRows (readData toyotaConfig)).length = matchedModelCount toyotaConfig :=
  ⟨by decide, by decide, by decide,
    matched_model_count_rows toyotaConfig (by decide) (by decide)⟩

/-- C7: for every decoded list of Makes and list of ModelGroups, the assembly step of `readData`
(a total function) returns a list with the same length as the Makes list, with the same ID and
Name at every position in the original order, where the Models of each Make are the Values of the
last ModelGroup of the input whose MakeID equals the ID of that Make, and are empty when no
ModelGroup has that MakeID. -/
theorem assembly_last_write_wins (config : YAMLData) :
    (readData config).CarMake.length = config.Make.length
    ∧ (readData config).CarMake
        = config.Make.map (fun m =>
            { ID := m.ID, Name := m.Name, Models := lastGroupValues config.Model m.ID })
    ∧ ∀ id : String, id ∉ config.Model.map (fun g => g.MakeID) →
        lastGroupValues config.Model id = [] := by
  refine ⟨?_, readData_eq config, fun id h => lastGroupValues_of_not_mem _ id h⟩
  rw [readData_eq, List.length_map]

/-- C7 (witness): in a document with two ModelGroups of parent id `m1` the Make `m1` receives the
Values of the second one, and an id that no ModelGroup names resolves to no Models. -/
theorem assembly_last_write_wins_witness :
    (readData dupGroups).CarMake
        = [{ ID := "m1", Name := "Toyota", Models := [{ ID := "c2", Name := "Camry" }] }]
    ∧ "m2" ∉ dupGroups.Model.map (fun g => g.MakeID)
    ∧ lastGroupValues dupGroups.Model "m2" = [] :=
  ⟨(assembly_last_write_wins dupGroups).2.1, by decide,
    (assembly_last_write_wins dupGroups).2.2 "m2" (by decide)⟩

/-- C8: for every ordered list of rows and every assignment of outcomes to the update calls, the
dispatch loop issues the update calls in list order, one per row with the range and values of
that row, and stops at the first failing call. If the first failure is at position `p`, the trace
is that of the successful dispatch of the rows `0..p` followed by the fatal exit, so exactly the
calls at positions `0..p` are issued; if no call fails, exactly one call per row is issued and
the loop does not exit fatally. -/
theorem dispatch_stops_at_first_failure (rows : List ValueRange) (fails : Nat → Bool) :
    (∀ p : Nat, p < rows.length → fails p = true → (∀ q : Nat, q < p → fails q = false) →
        dispatchLoop fails 0 rows
            = dispatchLoop (fun _ => false) 0 (rows.take (p + 1)) ++ [Event.fatal]
        ∧ updatesIssued (dispatchLoop fails 0 rows)
            = (rows.take (p + 1)).map (fun v =>
                Event.update spreadsheetId v.Range
                  { MajorDimension := "ROWS", Range := "", Values := v.Values } "RAW"))
    ∧ ((∀ q : Nat, q < rows.length → fails q = false) →
        updatesIssued (dispatchLoop fails 0 rows)
            = rows.map (fun v =>
                Event.update spreadsheetId v.Range
                  { MajorDimension := "ROWS", Range := "", Values := v.Values } "RAW")
        ∧ Event.fatal ∉ dispatchLoop fails 0 rows) := by
  constructor
  · intro p hp hf hq
    have key := dispatchLoop_fail fails rows 0 p hp
      (fun q hq2 => by simpa using hq q hq2) (by simpa using hf)
    refine ⟨key, ?_⟩
    rw [key]
    simp only [updatesIssued, List.filter_append]
    have h := updatesIssued_ok (rows.take (p + 1)) 0
    simp only [updatesIssued] at h
    rw [h]
    have hu : updateCall = (fun v =>
        Event.update spreadsheetId v.Range
          { MajorDimension := "ROWS", Range := "", Values := v.Values } "RAW") := rfl
    rw [hu]
    simp
  · intro hok
    rw [dispatchLoop_ok fails rows 0 (fun q hq => by simpa using hok q hq)]
    exact ⟨updatesIssued_ok rows 0, dispatchLoop_ok_no_fatal rows 0⟩

/-- C8 (witness): dispatching the three rows of the specification's example when the second call
fails issues the first two calls only; when no call fails it issues all three. -/
theorem dispatch_stops_at_first_failure_witness :
    updatesIssued (dispatchLoop (fun i => decide (i = 1)) 0 (mainValues toyota))
        = ((mainValues toyota).take 2).map (fun v =>
            Event.update spreadsheetId v.Range
              { MajorDimension := "ROWS", Range := "", Values := v.Values } "RAW")
    ∧ updatesIssued (dispatchLoop (fun _ => false) 0 (mainValues toyota))
        = (mainValues toyota).map (fun v =>
            Event.update spreadsheetId v.Range
              { MajorDimension := "ROWS", Range := "", Values := v.Values } "RAW") :=
  ⟨((dispatch_stops_at_first_failure (mainValues toyota) (fun i => decide (i = 1))).1 1
      (by decide) (by decide) (fun q hq => by simp; omega)).2,
   ((dispatch_stops_at_first_failure (mainValues toyota) (fun _ => false)).2
      (fun _ _ => rfl)).1⟩

/-- C9: for every ordered list of `K` update calls that all succeed, the dispatch loop pauses
exactly `ceil(K/10)` times: the trace consists, for each position in order, of the update call
followed by a pause of 2 seconds exactly when the position is a multiple of 10 (positions 0, 10,
20, ...), the very first call included. -/
theorem dispatch_pause_every_tenth (rows : List ValueRange) (fails : Nat → Bool)
    (hok : ∀ i : Nat, i < rows.length → fails i = false) :
    pauseCount (dispatchLoop fails 0 rows) = (rows.length + 9) / 10
    ∧ dispatchLoop fails 0 rows
        = ((rows.enumFrom 0).map (fun p =>
            updateCall p.2 :: (if p.1 % 10 = 0 then [Event.sleep 2] else []))).flatten := by
  rw [dispatchLoop_ok fails rows 0 (fun q hq => by simpa using hok q hq)]
  refine ⟨?_, dispatchLoop_paced rows 0⟩
  have h := pauseCount_ok rows 0
  simp only [Nat.zero_add] at h
  omega

/-- C9 (witness): eleven successful calls are paused twice, after the calls of positions 0 and
10. -/
theorem dispatch_pause_every_tenth_witness :
    (∀ i : Nat, i < (List.replicate 11 headerRow).length → (fun _ => false) i = false)
    ∧ pauseCount (dispatchLoop (fun _ => false) 0 (List.replicate 11 headerRow)) = 2 :=
  ⟨fun _ _ => rfl,
   (dispatch_pause_every_tenth (List.replicate 11 headerRow) (fun _ => false)
      (fun _ _ => rfl)).1⟩
end GoGoogleSheets
